import Mathlib

/-!
# Verification of the web_store Cart/Catalog consistency logic

Shallow embedding of the core of `CJRockball/web_store`:

* `app/models/items.py` — `FoodCategory`, `FoodItem`, `CartItem`, `Cart`
  with `add_item`, `remove_item`, `clear`;
* `app/services/store_service.py` — the fixed menu (`_initialize_menu`),
  `get_item`, `get_items_by_category`, `validate_cart`, `StoreException`;
* `app/dependencies.py` — session (de)serialization of a cart
  (`get_shopping_cart`, `update_shopping_cart`);
* the request handlers that mutate and persist the cart
  (`store.add_item`, `store.add_item_form_handler`,
  `checkout.remove_item_from_cart`).

Python integers are modelled as `Int` (arbitrary precision, signed);
Python exceptions as `Except`; the session dictionary as a record whose
fields mirror exactly the keys written by `update_shopping_cart`.
-/

/-- `FoodCategory(str, Enum)`: `JUNK_FOOD = "junk"`, `HEALTHY_FOOD = "healthy"`. -/
inductive FoodCategory where
  | junk
  | healthy
deriving DecidableEq, Repr

/-- `FoodItem(BaseModel)`: name, positive price, category, image file,
optional description.  (The pydantic field validators canonicalize the name
at construction time; the catalog below is written, as in the source, with
already-canonical title-cased names.) -/
structure FoodItem where
  name : String
  price : Int
  category : FoodCategory
  image : String
  description : Option String
deriving DecidableEq, Repr

/-- `CartItem(BaseModel)`: one line of the cart. -/
structure CartItem where
  name : String
  price : Int
  image : String
  quantity : Int
deriving DecidableEq, Repr

/-- `Cart(BaseModel)`: line items plus the two derived totals, stored
redundantly exactly as in the source. -/
structure Cart where
  items : List CartItem
  total_cost : Int
  item_count : Int
deriving DecidableEq, Repr

/-- `Cart()` — the pydantic defaults: no items, zero totals. -/
def Cart.empty : Cart := ⟨[], 0, 0⟩

/-- The loop at the top of `Cart.add_item`: walk the lines in order and
increment the quantity of the FIRST line whose name matches; `none` when no
line matches. -/
def incFirst : List CartItem → String → Option (List CartItem)
  | [], _ => none
  | ci :: rest, n =>
    if ci.name = n then
      some ({ ci with quantity := ci.quantity + 1 } :: rest)
    else
      (incFirst rest n).map (fun r => ci :: r)

/-- `Cart.add_item(self, food_item)`: increment the first matching line, or
append a fresh line with quantity 1 (`CartItem` quantity defaults to 1);
either way add the item price to `total_cost` and 1 to `item_count`. -/
def Cart.add_item (c : Cart) (food_item : FoodItem) : Cart :=
  match incFirst c.items food_item.name with
  | some newItems =>
      ⟨newItems, c.total_cost + food_item.price, c.item_count + 1⟩
  | none =>
      ⟨c.items ++ [⟨food_item.name, food_item.price, food_item.image, 1⟩],
       c.total_cost + food_item.price, c.item_count + 1⟩

/-- The loop of `Cart.remove_item`: find the FIRST line whose name matches,
returning that line together with the list with it deleted. -/
def removeFirst : List CartItem → String → Option (CartItem × List CartItem)
  | [], _ => none
  | ci :: rest, n =>
    if ci.name = n then
      some (ci, rest)
    else
      (removeFirst rest n).map (fun p => (p.1, ci :: p.2))

/-- `Cart.remove_item(self, item_name) -> bool`: delete the first matching
line wholesale, subtracting `price * quantity` from `total_cost` and
`quantity` from `item_count`; return `false` (cart untouched) when no line
matches.  The Python method mutates in place and returns a bool; here it
returns the new cart paired with that bool. -/
def Cart.remove_item (c : Cart) (item_name : String) : Cart × Bool :=
  match removeFirst c.items item_name with
  | some (ci, rest) =>
      (⟨rest, c.total_cost - ci.price * ci.quantity,
        c.item_count - ci.quantity⟩, true)
  | none => (c, false)

/-- `Cart.clear(self)`: reset everything to the empty state. -/
def Cart.clear (_ : Cart) : Cart := ⟨[], 0, 0⟩

/-- `StoreException(Exception)`: message plus HTTP-ish status code. -/
structure StoreException where
  message : String
  status_code : Int
deriving DecidableEq, Repr

instance {ε α : Type} [DecidableEq ε] [DecidableEq α] :
    DecidableEq (Except ε α)
  | .error a, .error b => decidable_of_iff (a = b) (by simp)
  | .error _, .ok _ => isFalse (by simp)
  | .ok _, .error _ => isFalse (by simp)
  | .ok a, .ok b => decidable_of_iff (a = b) (by simp)

/-- `StoreService._initialize_menu`: the fixed ten-item menu, as an
association list in the insertion order of the Python dict literal (Python
dicts preserve insertion order). -/
def menu_items : List (String × FoodItem) :=
  [ ("Pizza",
     ⟨"Pizza", 1, FoodCategory.junk, "pizza.jpg",
      some "Delicious cheese pizza"⟩),
    ("Fries",
     ⟨"Fries", 1, FoodCategory.junk, "fries.jpg",
      some "Crispy golden fries"⟩),
    ("Cookie",
     ⟨"Cookie", 1, FoodCategory.junk, "cookie.jpg",
      some "Sweet chocolate chip cookie"⟩),
    ("Hotdog",
     ⟨"Hotdog", 1, FoodCategory.junk, "hotdog.jpg",
      some "Classic hotdog with mustard"⟩),
    ("Chocolate",
     ⟨"Chocolate", 1, FoodCategory.junk, "chocolate.jpg",
      some "Rich milk chocolate bar"⟩),
    ("Carrot",
     ⟨"Carrot", 2, FoodCategory.healthy, "carrot.jpg",
      some "Fresh organic carrot"⟩),
    ("Tomato",
     ⟨"Tomato", 2, FoodCategory.healthy, "tomato.jpg",
      some "Ripe red tomato"⟩),
    ("Corn",
     ⟨"Corn", 2, FoodCategory.healthy, "corn.jpg",
      some "Sweet corn on the cob"⟩),
    ("Tea",
     ⟨"Tea", 2, FoodCategory.healthy, "tea.jpg",
      some "Healthy herbal tea"⟩),
    ("Icecream",
     ⟨"Icecream", 2, FoodCategory.junk, "icecream.jpg",
      some "Vanilla ice cream cone"⟩) ]

/-- The menu values in dict-insertion order (`self.menu_items.values()`). -/
def catalogFoods : List FoodItem := menu_items.map Prod.snd

/-- `StoreService.get_item(name)`: dict membership test then lookup; raises
`StoreException(f"Item '{name}' not found", 404)` when absent.  (`\x27` is
the ASCII apostrophe of the Python f-string.) -/
def get_item (name : String) : Except StoreException FoodItem :=
  match menu_items.lookup name with
  | none => .error ⟨"Item \x27" ++ name ++ "\x27 not found", 404⟩
  | some it => .ok it

/-- `StoreService.get_items_by_category(category)`: list comprehension over
`self.menu_items.values()` keeping insertion order. -/
def get_items_by_category (category : FoodCategory) : List FoodItem :=
  catalogFoods.filter (fun it => it.category = category)

/-- The loop of `validate_cart`: first cart line (in order) whose name is
not a key of the menu, if any. -/
def firstInvalid : List CartItem → Option CartItem
  | [] => none
  | ci :: rest =>
    match menu_items.lookup ci.name with
    | none => some ci
    | some _ => firstInvalid rest

/-- `StoreService.validate_cart(cart, max_items=50)`: raise when
`item_count > max_items`, then raise on the first cart line whose name is
not in the menu, else return `True`.  Pure: the cart is only read. -/
def validate_cart (cart : Cart) (max_items : Int) : Except StoreException Bool :=
  if cart.item_count > max_items then
    .error ⟨"Cart cannot contain more than " ++ toString max_items
            ++ " items", 400⟩
  else
    match firstInvalid cart.items with
    | some ci => .error ⟨"Invalid item in cart: " ++ ci.name, 400⟩
    | none => .ok true

/-- One line of the session dict: exactly the keys produced by
`CartItem.model_dump()` — name, price, image, quantity. -/
structure SessionItemData where
  name : String
  price : Int
  image : String
  quantity : Int
deriving DecidableEq, Repr

/-- The session dict written by `update_shopping_cart`: exactly the keys
`items`, `total_cost`, `item_count`. -/
structure SessionCartData where
  items : List SessionItemData
  total_cost : Int
  item_count : Int
deriving DecidableEq, Repr

/-- `update_shopping_cart(request, cart)`: serialize the cart into the
session dict, one `model_dump()` per line. -/
def update_shopping_cart (cart : Cart) : SessionCartData :=
  ⟨cart.items.map (fun item => ⟨item.name, item.price, item.image, item.quantity⟩),
   cart.total_cost, cart.item_count⟩

/-- `get_shopping_cart(request)`: rebuild a `Cart` from the session dict,
converting each stored line back into a `CartItem` and copying the two
stored totals verbatim — no consistency check between them. -/
def get_shopping_cart (cart_data : SessionCartData) : Cart :=
  ⟨cart_data.items.map (fun d => ⟨d.name, d.price, d.image, d.quantity⟩),
   cart_data.total_cost, cart_data.item_count⟩

/-- The JSON API handler `POST /store/add-item` (`store.add_item`): load the
cart from the session, look the item up (a `StoreException` becomes an HTTP
error and nothing is persisted), mutate with `Cart.add_item`, then persist —
with NO call to `validate_cart`.  Result: the committed session data. -/
def add_item_api (session : SessionCartData) (item_name : String) :
    Except StoreException SessionCartData :=
  match get_item item_name with
  | .error e => .error e
  | .ok item =>
      .ok (update_shopping_cart ((get_shopping_cart session).add_item item))

/-- Outcome of the form handler: a redirect to checkout, a rendered page
with the NEW session committed, or a rendered error page with the session
left as it was (the `StoreException` branch re-renders without calling
`update_shopping_cart`). -/
inductive FormOutcome where
  | redirect
  | committed : SessionCartData → FormOutcome
  | errorPage : StoreException → FormOutcome
deriving DecidableEq, Repr

/-- The form handler `POST /store/add-item-form`
(`store.add_item_form_handler`), taking the already-sanitized item name:
the literal `"action"` redirects to checkout; otherwise look up, mutate,
`validate_cart(cart)` (default limit 50), and only then persist. -/
def add_item_form_handler (session : SessionCartData)
    (clean_item_name : String) : FormOutcome :=
  if clean_item_name = "action" then .redirect
  else
    match get_item clean_item_name with
    | .error e => .errorPage e
    | .ok item =>
        match validate_cart ((get_shopping_cart session).add_item item) 50 with
        | .error e => .errorPage e
        | .ok _ =>
            .committed
              (update_shopping_cart ((get_shopping_cart session).add_item item))

/-- The handler `POST /checkout/remove-item`
(`checkout.remove_item_from_cart`): remove and persist when a line was
removed, leave the session alone otherwise — again with NO `validate_cart`
call.  Result: the session data after the request. -/
def remove_item_handler (session : SessionCartData) (item_name : String) :
    SessionCartData :=
  match (get_shopping_cart session).remove_item item_name with
  | (cart, true) => update_shopping_cart cart
  | (_, false) => session

/-- The three cart mutations a request can apply (`add_item` is always fed
an item resolved from the catalog by the handlers). -/
inductive Op where
  | add : FoodItem → Op
  | remove : String → Op
  | clear : Op
deriving DecidableEq, Repr

/-- Apply one operation to a cart. -/
def applyOp (c : Cart) : Op → Cart
  | .add f => c.add_item f
  | .remove n => (c.remove_item n).1
  | .clear => c.clear

/-- Apply a sequence of operations left to right. -/
def execOps (c : Cart) : List Op → Cart
  | [] => c
  | op :: rest => execOps (applyOp c op) rest

/-- Σ line.price × line.quantity over the cart lines. -/
def sumCost : List CartItem → Int
  | [] => 0
  | ci :: rest => ci.price * ci.quantity + sumCost rest

/-- Σ line.quantity over the cart lines. -/
def sumQty : List CartItem → Int
  | [] => 0
  | ci :: rest => ci.quantity + sumQty rest

/-- The accounting invariant of the spec: both stored totals agree with the
sums derived from the lines. -/
def accountingInv (c : Cart) : Prop :=
  c.total_cost = sumCost c.items ∧ c.item_count = sumQty c.items

instance (c : Cart) : Decidable (accountingInv c) := by
  unfold accountingInv; infer_instance

/-- Every line of the cart carries the name and price of some catalog item
(auxiliary invariant needed because `add_item` trusts the price already on
a matching line). -/
def pricesOk (c : Cart) : Prop :=
  ∀ ci ∈ c.items, ∃ f ∈ catalogFoods, f.name = ci.name ∧ f.price = ci.price

/-- `Op.add` operands must come from the catalog; removals and clears are
unconstrained. -/
def opOk : Op → Prop
  | .add f => f ∈ catalogFoods
  | .remove _ => True
  | .clear => True

instance : ∀ op, Decidable (opOk op) := fun op => by
  cases op <;> simp only [opOk] <;> infer_instance

/-! ### Helper lemmas about the list traversals -/

theorem sumCost_append (l1 l2 : List CartItem) :
    sumCost (l1 ++ l2) = sumCost l1 + sumCost l2 := by
  induction l1 with
  | nil => simp [sumCost]
  | cons ci rest ih => simp [sumCost, ih]; ring

theorem sumQty_append (l1 l2 : List CartItem) :
    sumQty (l1 ++ l2) = sumQty l1 + sumQty l2 := by
  induction l1 with
  | nil => simp [sumQty]
  | cons ci rest ih => simp [sumQty, ih]; ring

theorem incFirst_eq_none {items : List CartItem} {n : String} :
    incFirst items n = none ↔ ∀ ci ∈ items, ci.name ≠ n := by
  induction items with
  | nil => simp [incFirst]
  | cons ci rest ih =>
    by_cases h : ci.name = n
    · simp [incFirst, h]
    · simp [incFirst, h, ih]

theorem removeFirst_eq_none {items : List CartItem} {n : String} :
    removeFirst items n = none ↔ ∀ ci ∈ items, ci.name ≠ n := by
  induction items with
  | nil => simp [removeFirst]
  | cons ci rest ih =>
    by_cases h : ci.name = n
    · simp [removeFirst, h]
    · simp [removeFirst, h, ih]

/-- Decomposition of a successful `incFirst`: the input splits around the
first matching line, and the output is the same list with only that line's
quantity incremented. -/
theorem incFirst_eq_some {items out : List CartItem} {n : String}
    (h : incFirst items n = some out) :
    ∃ l1 ci l2, items = l1 ++ ci :: l2 ∧
      out = l1 ++ { ci with quantity := ci.quantity + 1 } :: l2 ∧
      ci.name = n ∧ ∀ x ∈ l1, x.name ≠ n := by
  induction items generalizing out with
  | nil => simp [incFirst] at h
  | cons hd tl ih =>
    by_cases hc : hd.name = n
    · rw [incFirst, if_pos hc] at h
      exact ⟨[], hd, tl, by simp, by simpa using h.symm, hc, by simp⟩
    · rw [incFirst, if_neg hc] at h
      obtain ⟨out2, h2, rfl⟩ := Option.map_eq_some'.mp h
      obtain ⟨l1, ci, l2, hsplit, hout, hname, hclean⟩ := ih h2
      refine ⟨hd :: l1, ci, l2, by simp [hsplit], by simp [hout], hname, ?_⟩
      intro x hx
      rcases List.mem_cons.mp hx with rfl | hx
      · exact hc
      · exact hclean x hx

/-- Decomposition of a successful `removeFirst`: the input splits around
the first matching line, which is returned, and the rest is the input with
that line deleted. -/
theorem removeFirst_eq_some {items : List CartItem} {n : String}
    {ci : CartItem} {rest : List CartItem}
    (h : removeFirst items n = some (ci, rest)) :
    ∃ l1 l2, items = l1 ++ ci :: l2 ∧ rest = l1 ++ l2 ∧
      ci.name = n ∧ ∀ x ∈ l1, x.name ≠ n := by
  induction items generalizing ci rest with
  | nil => simp [removeFirst] at h
  | cons hd tl ih =>
    by_cases hc : hd.name = n
    · rw [removeFirst, if_pos hc] at h
      obtain ⟨rfl, rfl⟩ : hd = ci ∧ tl = rest := by
        simpa [Prod.ext_iff] using h
      exact ⟨[], tl, by simp, by simp, hc, by simp⟩
    · rw [removeFirst, if_neg hc] at h
      obtain ⟨⟨ci2, rest2⟩, h2, heq⟩ := Option.map_eq_some'.mp h
      obtain ⟨rfl, rfl⟩ : ci2 = ci ∧ hd :: rest2 = rest := by
        simpa [Prod.ext_iff] using heq
      obtain ⟨l1, l2, hsplit, hrest, hname, hclean⟩ := ih h2
      refine ⟨hd :: l1, l2, by simp [hsplit], by simp [hrest], hname, ?_⟩
      intro x hx
      rcases List.mem_cons.mp hx with rfl | hx
      · exact hc
      · exact hclean x hx

/-- Converse direction for `incFirst`: at the first matching position the
traversal increments exactly that line. -/
theorem incFirst_append {l1 l2 : List CartItem} {ci : CartItem} {n : String}
    (hclean : ∀ x ∈ l1, x.name ≠ n) (hname : ci.name = n) :
    incFirst (l1 ++ ci :: l2) n =
      some (l1 ++ { ci with quantity := ci.quantity + 1 } :: l2) := by
  induction l1 with
  | nil => simp [incFirst, hname]
  | cons hd tl ih =>
    have hhd : hd.name ≠ n := hclean hd (by simp)
    simp only [List.cons_append, incFirst, if_neg hhd, List.append_eq]
    rw [ih (fun x hx => hclean x (by simp [hx]))]
    rfl

/-- Converse direction for `removeFirst`: at the first matching position
the traversal deletes exactly that line. -/
theorem removeFirst_append {l1 l2 : List CartItem} {ci : CartItem}
    {n : String} (hclean : ∀ x ∈ l1, x.name ≠ n) (hname : ci.name = n) :
    removeFirst (l1 ++ ci :: l2) n = some (ci, l1 ++ l2) := by
  induction l1 with
  | nil => simp [removeFirst, hname]
  | cons hd tl ih =>
    have hhd : hd.name ≠ n := hclean hd (by simp)
    simp only [List.cons_append, removeFirst, if_neg hhd, List.append_eq]
    rw [ih (fun x hx => hclean x (by simp [hx]))]
    rfl

/-! ### Catalog facts -/

/-- In the fixed menu, two catalog items with the same name have the same
price (names are in fact unique). -/
theorem catalog_price_unique :
    ∀ f ∈ catalogFoods, ∀ g ∈ catalogFoods, f.name = g.name →
      f.price = g.price := by decide

/-- The menu's dict keys are pairwise distinct. -/
theorem menu_keys_nodup : (menu_items.map Prod.fst).Nodup := by decide

/-- Every menu entry is keyed by its item's (canonical, title-cased)
name. -/
theorem menu_key_eq_name : ∀ p ∈ menu_items, p.1 = p.2.name := by decide

/-! ### Preservation of the accounting invariant -/

/-- One operation preserves both the accounting invariant and the
prices-from-catalog invariant, provided any added item comes from the
catalog. -/
theorem applyOp_preserves (c : Cart) (op : Op) (hA : accountingInv c)
    (hP : pricesOk c) (hop : opOk op) :
    accountingInv (applyOp c op) ∧ pricesOk (applyOp c op) := by
  obtain ⟨hcost, hqty⟩ := hA
  cases op with
  | clear =>
    exact ⟨⟨rfl, rfl⟩, by intro ci h; simp [applyOp, Cart.clear] at h⟩
  | remove n =>
    simp only [applyOp, Cart.remove_item]
    cases hr : removeFirst c.items n with
    | none => exact ⟨⟨hcost, hqty⟩, hP⟩
    | some p =>
      obtain ⟨ci, rest⟩ := p
      obtain ⟨l1, l2, hsplit, hrest, -, -⟩ := removeFirst_eq_some hr
      constructor
      · constructor
        · simp only [hcost, hsplit, hrest, sumCost_append, sumCost]
          ring
        · simp only [hqty, hsplit, hrest, sumQty_append, sumQty]
          ring
      · intro x hx
        apply hP
        simp only [hrest, List.mem_append] at hx
        rcases hx with hx | hx <;> simp [hsplit, hx]
  | add f =>
    simp only [applyOp, Cart.add_item]
    cases hi : incFirst c.items f.name with
    | none =>
      constructor
      · constructor
        · simp only [hcost, sumCost_append, sumCost]
          ring
        · simp only [hqty, sumQty_append, sumQty]
          ring
      · intro x hx
        rcases List.mem_append.mp hx with hx | hx
        · exact hP x hx
        · obtain rfl : x = ⟨f.name, f.price, f.image, 1⟩ := by simpa using hx
          exact ⟨f, hop, rfl, rfl⟩
    | some out =>
      obtain ⟨l1, ci, l2, hsplit, hout, hname, -⟩ := incFirst_eq_some hi
      obtain ⟨g, hg, hgname, hgprice⟩ := hP ci (by simp [hsplit])
      have hfp : f.price = ci.price := by
        have := catalog_price_unique f hop g hg (by rw [hgname, hname])
        omega
      constructor
      · constructor
        · simp only [hcost, hsplit, hout, sumCost_append, sumCost, hfp]
          ring
        · simp only [hqty, hsplit, hout, sumQty_append, sumQty]
          ring
      · intro x hx
        simp only [hout, List.mem_append, List.mem_cons] at hx
        rcases hx with hx | rfl | hx
        · exact hP x (by simp [hsplit, hx])
        · exact ⟨g, hg, by simp [hgname], by simp [hgprice]⟩
        · exact hP x (by simp [hsplit, hx])

/-- A whole sequence of catalog-drawn operations preserves both
invariants. -/
theorem execOps_preserves (ops : List Op) (c : Cart) (hA : accountingInv c)
    (hP : pricesOk c) (hops : ∀ op ∈ ops, opOk op) :
    accountingInv (execOps c ops) ∧ pricesOk (execOps c ops) := by
  induction ops generalizing c with
  | nil => exact ⟨hA, hP⟩
  | cons op rest ih =>
    obtain ⟨hA2, hP2⟩ :=
      applyOp_preserves c op hA hP (hops op (by simp))
    exact ih (applyOp c op) hA2 hP2 (fun o ho => hops o (by simp [ho]))

/-- Adding the same item `n` times to the initially empty cart
(`Cart.empty.add_item f`, iterated). -/
def addN (f : FoodItem) : Nat → Cart
  | 0 => Cart.empty
  | n + 1 => (addN f n).add_item f

/-- Closed form of `addN` for `n ≥ 1`: a single line of quantity `n`. -/
theorem addN_formula (f : FoodItem) (n : Nat) (h : 1 ≤ n) :
    addN f n = ⟨[⟨f.name, f.price, f.image, (n : Int)⟩],
      (n : Int) * f.price, (n : Int)⟩ := by
  induction n with
  | zero => omega
  | succ m ih =>
    rcases Nat.eq_zero_or_pos m with rfl | hm
    · simp [addN, Cart.empty, Cart.add_item, incFirst]
    · rw [addN, ih hm]
      simp [Cart.add_item, incFirst, Cart.mk.injEq, CartItem.mk.injEq]
      ring

/-! ### The claims -/

/-- C1.  For every sequence of `addItem`/`removeItem`/`clear` operations on
an initially empty cart whose added items are all drawn from the catalog,
the cart satisfies `total_cost = Σ line.price * line.quantity` and
`item_count = Σ line.quantity` after each operation (i.e. after every
prefix of the sequence). -/
theorem c1_cart_accounting_invariant (pre suf : List Op)
    (h : ∀ op ∈ pre ++ suf, opOk op) :
    accountingInv (execOps Cart.empty pre) :=
  (execOps_preserves pre Cart.empty ⟨rfl, rfl⟩
    (by intro ci hci; simp [Cart.empty] at hci)
    (fun op hop => h op (List.mem_append_left suf hop))).1

/-- Witness for C1 at a concrete operation sequence: add Pizza twice and
Carrot once, remove Pizza, with a trailing `clear` still to run. -/
theorem c1_witness :
    accountingInv (execOps Cart.empty
      [Op.add ⟨"Pizza", 1, FoodCategory.junk, "pizza.jpg",
          some "Delicious cheese pizza"⟩,
       Op.add ⟨"Pizza", 1, FoodCategory.junk, "pizza.jpg",
          some "Delicious cheese pizza"⟩,
       Op.add ⟨"Carrot", 2, FoodCategory.healthy, "carrot.jpg",
          some "Fresh organic carrot"⟩,
       Op.remove "Pizza"]) :=
  c1_cart_accounting_invariant
    [Op.add ⟨"Pizza", 1, FoodCategory.junk, "pizza.jpg",
        some "Delicious cheese pizza"⟩,
     Op.add ⟨"Pizza", 1, FoodCategory.junk, "pizza.jpg",
        some "Delicious cheese pizza"⟩,
     Op.add ⟨"Carrot", 2, FoodCategory.healthy, "carrot.jpg",
        some "Fresh organic carrot"⟩,
     Op.remove "Pizza"]
    [Op.clear] (by decide)

/-- C4.  Adding the same item `N ≥ 1` times to an initially empty cart
yields exactly one line of quantity `N` (never `N` lines); in general
`add_item` increments the quantity of the existing line with the same name
(adding the price to `total_cost` and 1 to `item_count`), and appends a
fresh line of quantity 1 when no line matches. -/
theorem c4_add_item_accumulates :
    (∀ (f : FoodItem) (N : Nat), 1 ≤ N →
      addN f N = ⟨[⟨f.name, f.price, f.image, (N : Int)⟩],
        (N : Int) * f.price, (N : Int)⟩)
  ∧ (∀ (c : Cart) (f : FoodItem) (l1 l2 : List CartItem) (ci : CartItem),
      c.items = l1 ++ ci :: l2 → ci.name = f.name →
      (∀ x ∈ l1, x.name ≠ f.name) →
      c.add_item f = ⟨l1 ++ { ci with quantity := ci.quantity + 1 } :: l2,
        c.total_cost + f.price, c.item_count + 1⟩)
  ∧ (∀ (c : Cart) (f : FoodItem), (∀ x ∈ c.items, x.name ≠ f.name) →
      c.add_item f = ⟨c.items ++ [⟨f.name, f.price, f.image, 1⟩],
        c.total_cost + f.price, c.item_count + 1⟩) := by
  refine ⟨addN_formula, ?_, ?_⟩
  · intro c f l1 l2 ci hsplit hname hclean
    simp only [Cart.add_item, hsplit, incFirst_append hclean hname]
  · intro c f hclean
    simp only [Cart.add_item, incFirst_eq_none.mpr hclean]

/-- Witness for C4: Pizza added three times gives one line of quantity 3;
the increment branch and the append branch at concrete carts. -/
theorem c4_witness :
    addN ⟨"Pizza", 1, FoodCategory.junk, "pizza.jpg",
        some "Delicious cheese pizza"⟩ 3 =
      ⟨[⟨"Pizza", 1, "pizza.jpg", 3⟩], 3, 3⟩
  ∧ Cart.add_item ⟨[⟨"Fries", 1, "fries.jpg", 1⟩,
        ⟨"Pizza", 1, "pizza.jpg", 2⟩], 3, 3⟩
      ⟨"Pizza", 1, FoodCategory.junk, "pizza.jpg",
        some "Delicious cheese pizza"⟩ =
      ⟨[⟨"Fries", 1, "fries.jpg", 1⟩, ⟨"Pizza", 1, "pizza.jpg", 3⟩], 4, 4⟩
  ∧ Cart.add_item Cart.empty
      ⟨"Pizza", 1, FoodCategory.junk, "pizza.jpg",
        some "Delicious cheese pizza"⟩ =
      ⟨[⟨"Pizza", 1, "pizza.jpg", 1⟩], 1, 1⟩ := by
  refine ⟨(c4_add_item_accumulates.1 _ 3 (by norm_num)).trans (by decide),
    ?_, ?_⟩
  · exact (c4_add_item_accumulates.2.1
      ⟨[⟨"Fries", 1, "fries.jpg", 1⟩, ⟨"Pizza", 1, "pizza.jpg", 2⟩], 3, 3⟩
      ⟨"Pizza", 1, FoodCategory.junk, "pizza.jpg",
        some "Delicious cheese pizza"⟩
      [⟨"Fries", 1, "fries.jpg", 1⟩] [] ⟨"Pizza", 1, "pizza.jpg", 2⟩
      rfl rfl (by decide)).trans (by decide)
  · exact (c4_add_item_accumulates.2.2 Cart.empty
      ⟨"Pizza", 1, FoodCategory.junk, "pizza.jpg",
        some "Delicious cheese pizza"⟩
      (by intro x hx; simp [Cart.empty] at hx)).trans (by decide)

/-- C5.  `remove_item` returns `false` and leaves the cart unchanged when
no line matches; when a line matches it deletes the (first) matching line
wholesale, subtracting `price * quantity` from `total_cost` and `quantity`
from `item_count`; removal succeeds exactly when a matching line exists;
under the at-most-one-line-per-name invariant no line with the removed name
remains; and adding an item three times then removing it returns the cart
to the empty state. -/
theorem c5_remove_item_total :
    (∀ (c : Cart) (n : String), (∀ x ∈ c.items, x.name ≠ n) →
      c.remove_item n = (c, false))
  ∧ (∀ (c : Cart) (n : String) (l1 l2 : List CartItem) (ci : CartItem),
      c.items = l1 ++ ci :: l2 → ci.name = n → (∀ x ∈ l1, x.name ≠ n) →
      c.remove_item n =
        (⟨l1 ++ l2, c.total_cost - ci.price * ci.quantity,
          c.item_count - ci.quantity⟩, true))
  ∧ (∀ (c : Cart) (n : String),
      (c.remove_item n).2 = true ↔ ∃ x ∈ c.items, x.name = n)
  ∧ (∀ (c : Cart) (n : String), (c.items.map CartItem.name).Nodup →
      ∀ x ∈ (c.remove_item n).1.items, x.name ≠ n)
  ∧ (∀ f : FoodItem,
      execOps Cart.empty [Op.add f, Op.add f, Op.add f, Op.remove f.name]
        = Cart.empty) := by
  refine ⟨?_, ?_, ?_, ?_, ?_⟩
  · intro c n hclean
    simp only [Cart.remove_item, removeFirst_eq_none.mpr hclean]
  · intro c n l1 l2 ci hsplit hname hclean
    simp only [Cart.remove_item, hsplit, removeFirst_append hclean hname]
  · intro c n
    cases hr : removeFirst c.items n with
    | none =>
      simp only [Cart.remove_item, hr]
      simp only [removeFirst_eq_none] at hr
      simpa using fun x hx => hr x hx
    | some p =>
      obtain ⟨ci, rest⟩ := p
      obtain ⟨l1, l2, hsplit, -, hname, -⟩ := removeFirst_eq_some hr
      simp only [Cart.remove_item, hr]
      simp only [true_iff]
      exact ⟨ci, by simp [hsplit], hname⟩
  · intro c n hnd x hx
    cases hr : removeFirst c.items n with
    | none =>
      rw [Cart.remove_item, hr] at hx
      exact (removeFirst_eq_none.mp hr) x hx
    | some p =>
      obtain ⟨ci, rest⟩ := p
      obtain ⟨l1, l2, hsplit, hrest, hname, hclean⟩ := removeFirst_eq_some hr
      rw [Cart.remove_item, hr] at hx
      simp only [hrest, List.mem_append] at hx
      rcases hx with hx | hx
      · exact hclean x hx
      · rw [hsplit, List.map_append, List.map_cons] at hnd
        have h2 : ci.name ∉ l2.map CartItem.name :=
          (List.nodup_cons.mp (List.nodup_append.mp hnd).2.1).1
        intro hxn
        exact h2 (by rw [hname, ← hxn]; exact List.mem_map_of_mem _ hx)
  · intro f
    have he : execOps Cart.empty
        [Op.add f, Op.add f, Op.add f, Op.remove f.name]
        = ((addN f 3).remove_item f.name).1 := rfl
    rw [he, addN_formula f 3 (by norm_num)]
    simp [Cart.remove_item, removeFirst, Cart.empty, Cart.mk.injEq]
    ring

/-- Witness for C5: removing from an empty cart; removing a quantity-3 line
deletes it wholesale; success flag at a present line; no line with the
removed name remains; and add-three-times-then-remove returns to empty. -/
theorem c5_witness :
    Cart.remove_item Cart.empty "Pizza" = (Cart.empty, false)
  ∧ Cart.remove_item ⟨[⟨"Pizza", 1, "pizza.jpg", 3⟩], 3, 3⟩ "Pizza"
      = (⟨[], 0, 0⟩, true)
  ∧ (Cart.remove_item ⟨[⟨"Pizza", 1, "pizza.jpg", 2⟩], 2, 2⟩ "Pizza").2
      = true
  ∧ (∀ x ∈ (Cart.remove_item ⟨[⟨"Pizza", 1, "pizza.jpg", 2⟩,
        ⟨"Fries", 1, "fries.jpg", 1⟩], 3, 3⟩ "Pizza").1.items,
      x.name ≠ "Pizza")
  ∧ execOps Cart.empty
      [Op.add ⟨"Pizza", 1, FoodCategory.junk, "pizza.jpg",
          some "Delicious cheese pizza"⟩,
       Op.add ⟨"Pizza", 1, FoodCategory.junk, "pizza.jpg",
          some "Delicious cheese pizza"⟩,
       Op.add ⟨"Pizza", 1, FoodCategory.junk, "pizza.jpg",
          some "Delicious cheese pizza"⟩,
       Op.remove "Pizza"] = Cart.empty := by
  refine ⟨c5_remove_item_total.1 Cart.empty "Pizza"
      (by intro x hx; simp [Cart.empty] at hx),
    (c5_remove_item_total.2.1 ⟨[⟨"Pizza", 1, "pizza.jpg", 3⟩], 3, 3⟩
      "Pizza" [] [] ⟨"Pizza", 1, "pizza.jpg", 3⟩ rfl rfl
      (by intro x hx; simp at hx)).trans (by decide),
    (c5_remove_item_total.2.2.1 _ "Pizza").mpr
      ⟨⟨"Pizza", 1, "pizza.jpg", 2⟩, by simp, rfl⟩,
    c5_remove_item_total.2.2.2.1 _ "Pizza" (by decide),
    c5_remove_item_total.2.2.2.2
      ⟨"Pizza", 1, FoodCategory.junk, "pizza.jpg",
        some "Delicious cheese pizza"⟩⟩

/-! ### Helper lemmas for validation and lookup -/

theorem firstInvalid_eq_none {items : List CartItem} :
    firstInvalid items = none ↔
      ∀ ci ∈ items, (menu_items.lookup ci.name).isSome := by
  induction items with
  | nil => simp [firstInvalid]
  | cons ci rest ih =>
    cases h : menu_items.lookup ci.name with
    | none =>
      simp only [firstInvalid, h]
      constructor
      · intro hc
        exact absurd hc (by simp)
      · intro hall
        have h2 := hall ci (List.mem_cons_self _ _)
        rw [h] at h2
        simp at h2
    | some v =>
      simp only [firstInvalid, h]
      rw [ih]
      constructor
      · intro hall x hx
        rcases List.mem_cons.mp hx with rfl | hx
        · rw [h]
          rfl
        · exact hall x hx
      · intro hall x hx
        exact hall x (List.mem_cons_of_mem _ hx)

theorem firstInvalid_eq_some {items : List CartItem} {ci : CartItem}
    (h : firstInvalid items = some ci) :
    ci ∈ items ∧ menu_items.lookup ci.name = none := by
  induction items with
  | nil => simp [firstInvalid] at h
  | cons hd tl ih =>
    cases hl : menu_items.lookup hd.name with
    | none =>
      rw [firstInvalid, hl] at h
      obtain rfl : hd = ci := by simpa using h
      exact ⟨by simp, hl⟩
    | some v =>
      rw [firstInvalid, hl] at h
      obtain ⟨hm, hlk⟩ := ih h
      exact ⟨by simp [hm], hlk⟩

/-- `validate_cart` only ever succeeds with the value `True`. -/
theorem validate_cart_ok {c : Cart} {m : Int} {b : Bool}
    (h : validate_cart c m = .ok b) : b = true := by
  unfold validate_cart at h
  by_cases hc : c.item_count > m
  · rw [if_pos hc] at h
    exact absurd h (by simp)
  · rw [if_neg hc] at h
    cases hfi : firstInvalid c.items <;> rw [hfi] at h
    · simpa using h.symm
    · exact absurd h (by simp)

/-- `List.lookup` on an association list with pairwise-distinct keys finds
exactly the pairs of the list. -/
theorem lookup_eq_some_iff_mem {l : List (String × FoodItem)}
    (hnd : (l.map Prod.fst).Nodup) (name : String) (it : FoodItem) :
    l.lookup name = some it ↔ (name, it) ∈ l := by
  induction l with
  | nil => simp [List.lookup]
  | cons p rest ih =>
    obtain ⟨k, v⟩ := p
    rw [List.map_cons, List.nodup_cons] at hnd
    obtain ⟨hk, hnd2⟩ := hnd
    by_cases hkeq : name = k
    · subst hkeq
      simp only [List.lookup, beq_self_eq_true]
      constructor
      · intro h
        obtain rfl : v = it := by simpa using h
        exact List.mem_cons_self _ _
      · intro h
        rcases List.mem_cons.mp h with h | h
        · obtain ⟨-, rfl⟩ := Prod.mk.injEq .. ▸ h
          rfl
        · exact absurd (List.mem_map_of_mem Prod.fst h) hk
    · simp only [List.lookup,
        show (name == k) = false from beq_eq_false_iff_ne.mpr hkeq]
      rw [ih hnd2]
      simp [List.mem_cons, Prod.ext_iff, hkeq]

/-- C3.  `validate_cart` raises `CartTooLarge` (status 400) exactly when
`item_count > max_items` — so a 50-item cart passes at limit 50 while a
51-item cart fails — raises the unknown-item error when some line's name is
not a menu key, and otherwise succeeds.  It is a pure check: the cart is
only read, never modified (its type returns no cart). -/
theorem c3_validate_cart :
    (∀ (cart : Cart) (max_items : Int), cart.item_count > max_items →
      validate_cart cart max_items =
        .error ⟨"Cart cannot contain more than " ++ toString max_items
          ++ " items", 400⟩)
  ∧ (∀ (cart : Cart) (max_items : Int), cart.item_count ≤ max_items →
      (∀ ci ∈ cart.items, (menu_items.lookup ci.name).isSome) →
      validate_cart cart max_items = .ok true)
  ∧ (∀ (cart : Cart) (max_items : Int), cart.item_count ≤ max_items →
      (∃ ci ∈ cart.items, menu_items.lookup ci.name = none) →
      ∃ ci, ci ∈ cart.items ∧ menu_items.lookup ci.name = none ∧
        validate_cart cart max_items =
          .error ⟨"Invalid item in cart: " ++ ci.name, 400⟩)
  ∧ validate_cart ⟨[⟨"Pizza", 1, "pizza.jpg", 50⟩], 50, 50⟩ 50 = .ok true
  ∧ validate_cart ⟨[⟨"Pizza", 1, "pizza.jpg", 51⟩], 51, 51⟩ 50 =
      .error ⟨"Cart cannot contain more than 50 items", 400⟩ := by
  refine ⟨?_, ?_, ?_, by decide, by decide⟩
  · intro cart max_items hgt
    unfold validate_cart
    rw [if_pos hgt]
  · intro cart max_items hle hall
    unfold validate_cart
    rw [if_neg (by omega), firstInvalid_eq_none.mpr hall]
  · intro cart max_items hle hbad
    cases hfi : firstInvalid cart.items with
    | none =>
      obtain ⟨ci, hci, hnone⟩ := hbad
      have := firstInvalid_eq_none.mp hfi ci hci
      rw [hnone] at this
      simp at this
    | some ci =>
      obtain ⟨hm, hlk⟩ := firstInvalid_eq_some hfi
      refine ⟨ci, hm, hlk, ?_⟩
      unfold validate_cart
      rw [if_neg (by omega), hfi]

/-- Witness for C3 at concrete carts: the too-large branch at 51 > 50, the
success branch for a valid 50-item cart, and the unknown-item branch for a
cart holding a name absent from the menu. -/
theorem c3_witness :
    validate_cart ⟨[⟨"Fries", 1, "fries.jpg", 51⟩], 51, 51⟩ 50 =
      .error ⟨"Cart cannot contain more than 50 items", 400⟩
  ∧ validate_cart ⟨[⟨"Fries", 1, "fries.jpg", 50⟩], 50, 50⟩ 50 = .ok true
  ∧ ∃ ci, ci ∈ ([⟨"Sushi", 3, "sushi.jpg", 1⟩] : List CartItem) ∧
      menu_items.lookup ci.name = none ∧
      validate_cart ⟨[⟨"Sushi", 3, "sushi.jpg", 1⟩], 3, 1⟩ 50 =
        .error ⟨"Invalid item in cart: " ++ ci.name, 400⟩ := by
  refine ⟨(c3_validate_cart.1 ⟨[⟨"Fries", 1, "fries.jpg", 51⟩], 51, 51⟩ 50
      (by decide)).trans (by decide),
    c3_validate_cart.2.1 ⟨[⟨"Fries", 1, "fries.jpg", 50⟩], 50, 50⟩ 50
      (by decide) (by decide),
    c3_validate_cart.2.2.1 ⟨[⟨"Sushi", 3, "sushi.jpg", 1⟩], 3, 1⟩ 50
      (by decide) ⟨⟨"Sushi", 3, "sushi.jpg", 1⟩, by simp, by decide⟩⟩

/-- C7.  `get_item` is exact-match lookup in the menu: it returns precisely
the menu entries, fails with the 404 `StoreException` when the name is not
a key, performs no normalization (keys are the canonical title-cased item
names, so `"pizza"` fails while `"Pizza"` succeeds), and `"Unknown"`
fails. -/
theorem c7_get_item_exact :
    (∀ (name : String) (it : FoodItem),
      get_item name = .ok it ↔ (name, it) ∈ menu_items)
  ∧ (∀ name : String, menu_items.lookup name = none →
      get_item name = .error ⟨"Item \x27" ++ name ++ "\x27 not found", 404⟩)
  ∧ (∀ p ∈ menu_items, p.1 = p.2.name)
  ∧ get_item "Pizza" = .ok ⟨"Pizza", 1, FoodCategory.junk, "pizza.jpg",
      some "Delicious cheese pizza"⟩
  ∧ get_item "pizza" = .error ⟨"Item \x27pizza\x27 not found", 404⟩
  ∧ get_item "Unknown" = .error ⟨"Item \x27Unknown\x27 not found", 404⟩ := by
  refine ⟨?_, ?_, menu_key_eq_name, by decide, by decide, by decide⟩
  · intro name it
    rw [← lookup_eq_some_iff_mem menu_keys_nodup]
    unfold get_item
    cases h : menu_items.lookup name <;> simp [h]
  · intro name h
    unfold get_item
    rw [h]

/-- Witness for C7: the lookup characterization applied at `"Pizza"`, and
the failure branch applied at the absent key `"Tofu"`. -/
theorem c7_witness :
    (("Pizza",
      (⟨"Pizza", 1, FoodCategory.junk, "pizza.jpg",
        some "Delicious cheese pizza"⟩ : FoodItem)) ∈ menu_items)
  ∧ get_item "Tofu" = .error ⟨"Item \x27Tofu\x27 not found", 404⟩ :=
  ⟨(c7_get_item_exact.1 "Pizza"
      ⟨"Pizza", 1, FoodCategory.junk, "pizza.jpg",
        some "Delicious cheese pizza"⟩).mp (by decide),
   c7_get_item_exact.2.1 "Tofu" (by decide)⟩

/-- C8.  `get_items_by_category` always succeeds and returns exactly the
menu items of the requested category, in menu-definition (insertion) order
— it is order-preserving (a sublist of the menu values) — and is empty
precisely when no menu item has that category. -/
theorem c8_get_items_by_category :
    (∀ (category : FoodCategory) (it : FoodItem),
      it ∈ get_items_by_category category ↔
        it ∈ catalogFoods ∧ it.category = category)
  ∧ (∀ category : FoodCategory,
      (get_items_by_category category).Sublist catalogFoods)
  ∧ (∀ category : FoodCategory,
      get_items_by_category category = [] ↔
        ∀ it ∈ catalogFoods, it.category ≠ category)
  ∧ get_items_by_category FoodCategory.junk =
      [⟨"Pizza", 1, FoodCategory.junk, "pizza.jpg",
        some "Delicious cheese pizza"⟩,
       ⟨"Fries", 1, FoodCategory.junk, "fries.jpg",
        some "Crispy golden fries"⟩,
       ⟨"Cookie", 1, FoodCategory.junk, "cookie.jpg",
        some "Sweet chocolate chip cookie"⟩,
       ⟨"Hotdog", 1, FoodCategory.junk, "hotdog.jpg",
        some "Classic hotdog with mustard"⟩,
       ⟨"Chocolate", 1, FoodCategory.junk, "chocolate.jpg",
        some "Rich milk chocolate bar"⟩,
       ⟨"Icecream", 2, FoodCategory.junk, "icecream.jpg",
        some "Vanilla ice cream cone"⟩]
  ∧ get_items_by_category FoodCategory.healthy =
      [⟨"Carrot", 2, FoodCategory.healthy, "carrot.jpg",
        some "Fresh organic carrot"⟩,
       ⟨"Tomato", 2, FoodCategory.healthy, "tomato.jpg",
        some "Ripe red tomato"⟩,
       ⟨"Corn", 2, FoodCategory.healthy, "corn.jpg",
        some "Sweet corn on the cob"⟩,
       ⟨"Tea", 2, FoodCategory.healthy, "tea.jpg",
        some "Healthy herbal tea"⟩] := by
  refine ⟨?_, ?_, ?_, by decide, by decide⟩
  · intro category it
    simp [get_items_by_category, List.mem_filter]
  · intro category
    exact List.filter_sublist _
  · intro category
    simp [get_items_by_category, List.filter_eq_nil_iff]

theorem get_update_id (cart : Cart) :
    get_shopping_cart (update_shopping_cart cart) = cart := by
  cases cart with
  | mk items tc ic =>
    simp only [update_shopping_cart, get_shopping_cart, List.map_map,
      Cart.mk.injEq]
    exact ⟨List.map_id items, trivial, trivial⟩

theorem update_get_id (cart_data : SessionCartData) :
    update_shopping_cart (get_shopping_cart cart_data) = cart_data := by
  cases cart_data with
  | mk items tc ic =>
    simp only [update_shopping_cart, get_shopping_cart, List.map_map,
      SessionCartData.mk.injEq]
    exact ⟨List.map_id items, trivial, trivial⟩

/-- C6.  Serializing a cart into the session dict and deserializing it back
is the identity, and conversely every session dict is reproduced exactly —
the persisted shape (lines of name/price/image/quantity plus `total_cost`
and `item_count`) round-trips losslessly. -/
theorem c6_session_round_trip :
    (∀ cart : Cart, get_shopping_cart (update_shopping_cart cart) = cart)
  ∧ ∀ cart_data : SessionCartData,
      update_shopping_cart (get_shopping_cart cart_data) = cart_data :=
  ⟨get_update_id, update_get_id⟩

/-- C9.  `clear` resets any cart to the empty state (no lines, zero
`total_cost`, zero `item_count`) and is idempotent. -/
theorem c9_clear_idempotent :
    (∀ c : Cart, c.clear = ⟨[], 0, 0⟩)
  ∧ ∀ c : Cart, c.clear.clear = c.clear :=
  ⟨fun _ => rfl, fun _ => rfl⟩

/-- C2, counterexample.  The JSON API handler `POST /store/add-item`
persists without validating: starting from a session holding a valid
50-Pizza cart (itself accepted by `validate_cart`), the handler commits a
51-item cart that `validate_cart` would reject as too large.  So validation
is NOT run after every persisted mutation, and an over-limit cart IS
committed by a request handler. -/
theorem c2_api_commits_invalid_cart :
    add_item_api ⟨[⟨"Pizza", 1, "pizza.jpg", 50⟩], 50, 50⟩ "Pizza" =
      .ok ⟨[⟨"Pizza", 1, "pizza.jpg", 51⟩], 51, 51⟩
  ∧ validate_cart
      (get_shopping_cart ⟨[⟨"Pizza", 1, "pizza.jpg", 50⟩], 50, 50⟩) 50 =
      .ok true
  ∧ validate_cart
      (get_shopping_cart ⟨[⟨"Pizza", 1, "pizza.jpg", 51⟩], 51, 51⟩) 50 =
      .error ⟨"Cart cannot contain more than 50 items", 400⟩ :=
  ⟨by decide, by decide, by decide⟩

/-- C2, amended.  Only the form handler `POST /store/add-item-form` runs
`validate_cart` after the mutation and before persisting: every session
state it commits passes validation.  (The JSON API add handler and the
remove handler persist without validating.) -/
theorem c2_form_handler_validates (session : SessionCartData)
    (clean_item_name : String) (sd : SessionCartData)
    (h : add_item_form_handler session clean_item_name = .committed sd) :
    validate_cart (get_shopping_cart sd) 50 = .ok true := by
  unfold add_item_form_handler at h
  by_cases ha : clean_item_name = "action"
  · rw [if_pos ha] at h
    exact absurd h (by simp)
  · rw [if_neg ha] at h
    cases hg : get_item clean_item_name with
    | error e =>
      rw [hg] at h
      exact absurd h (by simp)
    | ok item =>
      rw [hg] at h
      dsimp only at h
      cases hv : validate_cart ((get_shopping_cart session).add_item item) 50
        with
      | error e =>
        rw [hv] at h
        exact absurd h (by simp)
      | ok b =>
        rw [hv] at h
        obtain rfl :
            update_shopping_cart ((get_shopping_cart session).add_item item)
              = sd := by
          simpa using h
        rw [get_update_id, hv, validate_cart_ok hv]

/-- Witness for the amended C2: adding Pizza to an empty session through
the form handler commits a one-line session whose cart passes
validation. -/
theorem c2_witness :
    validate_cart
      (get_shopping_cart ⟨[⟨"Pizza", 1, "pizza.jpg", 1⟩], 1, 1⟩) 50 =
      .ok true :=
  c2_form_handler_validates ⟨[], 0, 0⟩ "Pizza"
    ⟨[⟨"Pizza", 1, "pizza.jpg", 1⟩], 1, 1⟩ (by decide)

/-- C10.  Deserialization copies the stored `items`, `total_cost` and
`item_count` verbatim with no consistency check, and validation checks only
the size limit and menu membership: a stored session whose totals disagree
with its single Pizza line reconstructs to a cart that violates the
accounting invariant yet passes `validate_cart`. -/
theorem c10_stale_totals_pass_validation :
    get_shopping_cart ⟨[⟨"Pizza", 1, "pizza.jpg", 1⟩], 999, 7⟩ =
      ⟨[⟨"Pizza", 1, "pizza.jpg", 1⟩], 999, 7⟩
  ∧ ¬ accountingInv
      (get_shopping_cart ⟨[⟨"Pizza", 1, "pizza.jpg", 1⟩], 999, 7⟩)
  ∧ validate_cart
      (get_shopping_cart ⟨[⟨"Pizza", 1, "pizza.jpg", 1⟩], 999, 7⟩) 50 =
      .ok true :=
  ⟨rfl, by decide, by decide⟩
